import Mathlib

/-!
Verification development for the harrisont/debugger repository.

The Rust sources are embedded shallowly: pure functions become Lean
functions, the stateful debug loop becomes explicit state passing,
machine integers become Nat (with explicit wrap-around where overflow
matters), and fallible code returns Option/Except.  A returned `none`
on an Option layer models a Rust panic; `Except.error` models a
returned `Err` value.
-/

namespace Debugger

/-- Rust's `{:#x}` format specifier: `0x` followed by lowercase
hexadecimal digits (`Nat.toDigits 16` produces lowercase digits). -/
def hexFmt (n : Nat) : String := "0x" ++ String.mk (Nat.toDigits 16 n)

/-! ### Debug session controller (src/main.rs, src/windows.rs) -/

/-- A `(ProcessId, ThreadId)` pair, the key of the `thread_states` map
in `main_debugger_loop` (src/main.rs line 62). -/
abbrev Key := Nat × Nat

/-- The `thread_states : HashMap<(ProcessId, ThreadId), ThreadState>` map.
`ThreadState` holds the single field `expect_step_exception : bool`
(src/main.rs lines 30-32), so the map is modelled as a partial function
to that flag; `none` means the thread is not registered. -/
def ThreadStates := Key → Option Bool

/-- Point update of the thread-state map (the effect of writing through
`thread_states.get_mut(..)`). -/
def updateTS (ts : ThreadStates) (k : Key) (v : Bool) : ThreadStates :=
  fun j => if j = k then some v else ts j

/-- `DebugContinueStatus` (src/windows.rs lines 303-307). -/
inductive DebugContinueStatus
  | cont
  | exceptionNotHandled
deriving DecidableEq, Repr

/-- `EXCEPTION_CODE_SINGLE_STEP = EXCEPTION_SINGLE_STEP` (src/windows.rs
line 21); the NTSTATUS value 0x80000004 viewed as its u32 bit pattern. -/
def EXCEPTION_CODE_SINGLE_STEP : Nat := 0x80000004

/-- The `chance_string` binding of the Exception arm (src/main.rs lines
74-78): the string is `"second chance"` when `first_chance` is true. -/
def chance_string (first_chance : Bool) : String :=
  if first_chance then "second chance" else "first chance"

/-- The `DebugEvent::Exception` arm of `main_debugger_loop`
(src/main.rs lines 73-88).  Input: current thread-state map, the event's
(process, thread) key, `first_chance`, and the exception code.  Output
`none` models the panic on an unregistered thread; otherwise the new
map, the printed report line (`none` when the exception is consumed as
a step completion), and the continuation status (initialised to
`Continue` at line 70 and only overwritten in the report branch). -/
def handle_exception (ts : ThreadStates) (k : Key) (first_chance : Bool)
    (code : Nat) : Option (ThreadStates × Option String × DebugContinueStatus) :=
  match ts k with
  | none => none
  | some expect_step_exception =>
    if expect_step_exception && (code == EXCEPTION_CODE_SINGLE_STEP) then
      some (updateTS ts k false, none, .cont)
    else
      some (ts,
        some ("Exception code " ++ hexFmt code ++ " (" ++ chance_string first_chance ++ ")"),
        .exceptionNotHandled)

/-- The `CommandExpr::Step` arm of `main_debugger_loop` (src/main.rs
lines 170-178), restricted to its effect on `thread_states`: it arms
`expect_step_exception` for the event's own (process, thread) key, or
panics (`none`) when that key has no state. -/
def step_arm (ts : ThreadStates) (k : Key) : Option ThreadStates :=
  match ts k with
  | none => none
  | some _ => some (updateTS ts k true)

/-- Concrete thread-state map used to instantiate theorems: process 1
with two registered threads 1 and 2, neither expecting a step. -/
def tsExample : ThreadStates :=
  fun j => if j = (1, 1) then some false else if j = (1, 2) then some false else none

/-! ### Modules, processes and name resolution
(src/module.rs, src/process.rs, src/name_resolution.rs) -/

/-- `ExportTarget` (src/module.rs lines 49-57) at the value level the
resolver consumes.  The RVA variant holds the absolute target address:
`read_exports` stores `module_address + function_addr` in it
(src/module.rs lines 196, 210). -/
inductive ExportTarget
  | rva (addr : Nat)
  | forwarder (name : String)
deriving DecidableEq, Repr

/-- `Export` (src/module.rs lines 32-37); `ordinal` is the biased
ordinal. -/
structure Export where
  name : Option String
  ordinal : Nat
  target : ExportTarget
deriving DecidableEq, Repr

/-- `impl ToString for Export` (src/module.rs lines 39-47): the name if
present, otherwise `Ordinal<n>` with the biased ordinal in decimal. -/
def Export.display (e : Export) : String :=
  match e.name with
  | some s => s
  | none => "Ordinal" ++ toString e.ordinal

/-- One successfully parsed public symbol of the module's PDB
(`pdb::SymbolData::Public`): its name, its `function` flag, and the RVA
produced by `offset.to_rva(&address_map)` (`unwrap_or_default` makes
that 0 when the mapping fails, so the rva is always available). -/
structure PubSym where
  name : String
  function : Bool
  rva : Nat
deriving DecidableEq, Repr

/-- `Module` (src/module.rs lines 20-30) at the level the resolver uses.
The `pdb : Result<PDB<File>, String>` field together with the pdb
crate's `global_symbols`/`address_map` iteration (an external
collaborator) is modelled as an `Except` holding the list of
successfully parsed public symbols in iteration order; a failure of
`global_symbols()` or `address_map()` behaves like an empty list. -/
structure Module where
  name : String
  address : Nat
  size : Nat
  exports : List Export
  pdb : Except String (List PubSym)

/-- `Module::contains_address` (src/module.rs lines 107-110). -/
def Module.contains_address (m : Module) (address : Nat) : Bool :=
  decide (m.address ≤ address) && decide (address < m.address + m.size)

/-- `Process` (src/process.rs lines 7-10). -/
structure Process where
  modules : List Module
  threads : List Nat

/-- `Process::get_containing_module_mut` (src/process.rs lines 47-49):
the first module whose range contains the address. -/
def Process.get_containing_module (p : Process) (address : Nat) : Option Module :=
  p.modules.find? (fun m => m.contains_address address)

/-- `module.name.rsplit('\\').next()` (src/process.rs line 63): the part
of the name after the last backslash (the whole name when there is
none). -/
def trimmedName (name : String) : String :=
  String.mk ((name.toList.reverse.takeWhile (fun c => c != '\\')).reverse)

/-- `str::to_lowercase`.  Rust's version is Unicode-aware; this
character-wise ASCII lowering agrees with it on the ASCII module names
that occur here. -/
def lowercase (s : String) : String := String.mk (s.toList.map Char.toLower)

/-- The loop body of `Process::get_module_by_name_mut` (src/process.rs
lines 51-71), with the running `potential_trimmed_match` made
explicit. -/
def getModuleByNameAux (q : String) : List Module → Option Module → Option Module
  | [], pot => pot
  | m :: rest, pot =>
    if m.name = q then some m
    else
      getModuleByNameAux q rest
        (if pot.isNone && (lowercase (trimmedName m.name) == lowercase q) then some m else pot)

/-- `Process::get_module_by_name_mut` (src/process.rs lines 51-71). -/
def Process.get_module_by_name (p : Process) (q : String) : Option Module :=
  getModuleByNameAux q p.modules none

/-- `AddressMatch` (src/name_resolution.rs lines 12-16). -/
inductive AddressMatch
  | none
  | exportM (e : Export)
  | publicM (s : String)
deriving DecidableEq, Repr

/-- `AddressMatch::is_none` (src/name_resolution.rs lines 18-22). -/
def AddressMatch.isNoneB : AddressMatch → Bool
  | .none => true
  | _ => false

/-- The export loop of `resolve_address_to_name`
(src/name_resolution.rs lines 69-78), carrying the
`(closest, closest_addr)` state. -/
def scanExports (address : Nat) : List Export → AddressMatch × Nat → AddressMatch × Nat
  | [], st => st
  | e :: rest, (closest, closest_addr) =>
    match e.target with
    | .rva export_addr =>
      if export_addr ≤ address ∧ (closest.isNoneB = true ∨ closest_addr < export_addr) then
        scanExports address rest (.exportM e, export_addr)
      else scanExports address rest (closest, closest_addr)
    | .forwarder _ => scanExports address rest (closest, closest_addr)

/-- The PDB public-symbol loop of `resolve_address_to_name`
(src/name_resolution.rs lines 82-102); symbols that fail to parse are
skipped by the source and hence absent from the modelled list. -/
def scanPdb (module_address address : Nat) :
    List PubSym → AddressMatch × Nat → AddressMatch × Nat
  | [], st => st
  | s :: rest, (closest, closest_addr) =>
    if s.function then
      if module_address + s.rva ≤ address ∧
          (closest.isNoneB = true ∨ closest_addr ≤ module_address + s.rva) then
        scanPdb module_address address rest (.publicM s.name, module_address + s.rva)
      else scanPdb module_address address rest (closest, closest_addr)
    else scanPdb module_address address rest (closest, closest_addr)

/-- The formatting step shared by both final branches of
`resolve_address_to_name` (src/name_resolution.rs lines 104-122). -/
def formatSym (moduleName symName : String) (offset : Nat) : String :=
  if offset = 0 then moduleName ++ "!" ++ symName
  else moduleName ++ "!" ++ symName ++ "+" ++ hexFmt offset

/-- `resolve_address_to_name` (src/name_resolution.rs lines 61-125). -/
def resolve_address_to_name (address : Nat) (p : Process) : Option String :=
  match p.get_containing_module address with
  | none => none
  | some module =>
    let st0 := scanExports address module.exports (AddressMatch.none, 0)
    let st1 := match module.pdb with
      | .ok syms => scanPdb module.address address syms st0
      | .error _ => st0
    match st1 with
    | (.exportM closest, closest_addr) =>
      some (formatSym module.name closest.display (address - closest_addr))
    | (.publicM closest, closest_addr) =>
      some (formatSym module.name closest (address - closest_addr))
    | (.none, _) => Option.none

/-- The export loop of `resolve_function_in_module`
(src/name_resolution.rs lines 48-58).  Outer `none` models the
`todo!()` panic on a forwarder target; `some none` is the fall-through
`None`. -/
def resolveFnAux (func : String) : List Export → Option (Option Nat)
  | [] => some Option.none
  | e :: rest =>
    match e.name with
    | some export_name =>
      if export_name = func then
        match e.target with
        | .rva export_addr => some (some export_addr)
        | .forwarder _ => none
      else resolveFnAux func rest
    | none => resolveFnAux func rest

/-- `resolve_function_in_module` (src/name_resolution.rs lines 46-59). -/
def resolve_function_in_module (m : Module) (func : String) : Option (Option Nat) :=
  resolveFnAux func m.exports

/-- `resolve_name_to_address` (src/name_resolution.rs lines 24-44).
`symbol.chars().position(|c| c == '!')` is the index of the first `!`
in character units; the Rust byte-index slicing agrees with the
character-based split on ASCII input.  The outer `Option` models the
`todo!()` panic reachable through a forwarder export. -/
def resolve_name_to_address (symbol : String) (p : Process) :
    Option (Except String Nat) :=
  match symbol.toList.findIdx? (fun c => c == '!') with
  | Option.none =>
    some (.error "Searching all modules for a symbol is not yet implmented")
  | some pos =>
    let module_name := String.mk (symbol.toList.take pos)
    let func_name := String.mk (symbol.toList.drop (pos + 1))
    match p.get_module_by_name module_name with
    | some module =>
      match resolve_function_in_module module func_name with
      | Option.none => Option.none
      | some (some addr) => some (.ok addr)
      | some Option.none =>
        some (.error ("Could not find " ++ func_name ++ " in module " ++ module_name))
    | Option.none => some (.error ("Could not find module " ++ module_name))

/-- A module whose PDB contributes no public symbols: either the pdb
failed to load, or it holds no symbols. -/
def noSymbolStore (m : Module) : Prop :=
  (∃ e, m.pdb = .error e) ∨ m.pdb = .ok []

/-- Spec example module: exports A@0x1000 and B@0x1010 (absolute), no
symbol store, range [0, 0x2000). -/
def modAB : Module :=
  ⟨"module", 0, 0x2000,
    [⟨some "A", 1, .rva 0x1000⟩, ⟨some "B", 2, .rva 0x1010⟩],
    .error "No matching PDB"⟩

/-- Process holding only `modAB`. -/
def procAB : Process := ⟨[modAB], []⟩

/-- Exports shared by the C5 example modules. -/
def kernelExports : List Export := [⟨some "ExitProcess", 1, .rva 0x7000⟩]

/-- A module named exactly `kernel32`. -/
def modExact : Module :=
  ⟨"kernel32", 0x1000, 0x9000, kernelExports, .error "No matching PDB"⟩

/-- A module whose name is a path ending in `\kernel32.dll`. -/
def modPath : Module :=
  ⟨"C:\\Windows\\System32\\kernel32.dll", 0x1000, 0x9000, kernelExports,
    .error "No matching PDB"⟩

/-- A module named exactly `kernel32.dll`. -/
def modExactDll : Module :=
  ⟨"kernel32.dll", 0x1000, 0x9000, kernelExports, .error "No matching PDB"⟩

/-- A module whose name is a path ending in `\KERNEL32.DLL` (upper
case, exercising the case-insensitive trimmed match). -/
def modPathUpper : Module :=
  ⟨"C:\\Windows\\System32\\KERNEL32.DLL", 0x1000, 0x9000, kernelExports,
    .error "No matching PDB"⟩

/-- Process with only the exactly-named module. -/
def procExact : Process := ⟨[modExact], []⟩

/-- Process with only the path-named module. -/
def procPath : Process := ⟨[modPath], []⟩

/-- Process with only the `kernel32.dll` module. -/
def procExactDll : Process := ⟨[modExactDll], []⟩

/-- Process with only the upper-case path module. -/
def procPathUpper : Process := ⟨[modPathUpper], []⟩

/-- Module with export A@0x1000 and a symbol-store public function C at
absolute address 0x1008 (base 0, rva 0x1008): the store candidate is
later than the export candidate. -/
def modStoreLate : Module :=
  ⟨"m", 0, 0x2000, [⟨some "A", 1, .rva 0x1000⟩], .ok [⟨"C", true, 0x1008⟩]⟩

/-- Process holding only `modStoreLate`. -/
def procStoreLate : Process := ⟨[modStoreLate], []⟩

/-- Module with export A@0x1008 and a symbol-store public function C at
absolute address 0x1000: the store candidate is earlier than the export
candidate. -/
def modStoreEarly : Module :=
  ⟨"m", 0, 0x2000, [⟨some "A", 1, .rva 0x1008⟩], .ok [⟨"C", true, 0x1000⟩]⟩

/-- Process holding only `modStoreEarly`. -/
def procStoreEarly : Process := ⟨[modStoreEarly], []⟩

/-- Module with export A and store symbol C at the same absolute
address 0x1008: the tie case. -/
def modStoreTie : Module :=
  ⟨"m", 0, 0x2000, [⟨some "A", 1, .rva 0x1008⟩], .ok [⟨"C", true, 0x1008⟩]⟩

/-- Process holding only `modStoreTie`. -/
def procStoreTie : Process := ⟨[modStoreTie], []⟩

/-! ### Breakpoint manager (src/breakpoint.rs) -/

/-- `Breakpoint` (src/breakpoint.rs lines 17-20); `id` is the wrapped
`BreakpointId(u32)` value. -/
structure Breakpoint where
  id : Nat
  address : Nat
deriving DecidableEq, Repr

/-- The loop of `BreakpointManager::get_free_id` (src/breakpoint.rs
lines 34-41): try candidate id `i` with `fuel` candidates left; `none`
models the `Too many breakpoints!` panic. -/
def freeIdAux (bps : List Breakpoint) : Nat → Nat → Option Nat
  | _, 0 => none
  | i, fuel + 1 =>
    if bps.any (fun b => b.id == i) then freeIdAux bps (i + 1) fuel else some i

/-- `BreakpointManager::get_free_id` (src/breakpoint.rs lines 34-41):
`for potential_id in 0..1024`. -/
def get_free_id (bps : List Breakpoint) : Option Nat := freeIdAux bps 0 1024

/-- The order used by `sort_by(|a, b| a.id.cmp(&b.id))`. -/
def bpLe (a b : Breakpoint) : Prop := a.id ≤ b.id

instance : DecidableRel bpLe :=
  fun a b => inferInstanceAs (Decidable (a.id ≤ b.id))

instance : IsTotal Breakpoint bpLe := ⟨fun a b => Nat.le_total a.id b.id⟩

instance : IsTrans Breakpoint bpLe := ⟨fun _ _ _ h1 h2 => Nat.le_trans h1 h2⟩

/-- `self.breakpoints.sort_by(|a, b| a.id.cmp(&b.id))` (src/breakpoint.rs
line 46).  Rust's sort is a stable merge sort; on lists with pairwise
distinct ids — the only lists the manager ever sorts — every comparison
sort produces the same list, modelled here as insertion sort. -/
def sortById (bps : List Breakpoint) : List Breakpoint :=
  List.insertionSort bpLe bps

/-- `BreakpointManager::add_breakpoint` (src/breakpoint.rs lines 43-47):
allocate the lowest free id, push, re-sort by id.  `none` models the
allocation panic. -/
def add_breakpoint (bps : List Breakpoint) (address : Nat) :
    Option (List Breakpoint) :=
  match get_free_id bps with
  | none => none
  | some id => some (sortById (bps ++ [⟨id, address⟩]))

/-- `BreakpointManager::remove_breakpoint` (src/breakpoint.rs lines
49-51): `retain(|x| x.id != id)`. -/
def remove_breakpoint (bps : List Breakpoint) (id : Nat) : List Breakpoint :=
  bps.filter (fun b => b.id != id)

/-- One operator action on the breakpoint manager. -/
inductive BpOp
  | add (address : Nat)
  | remove (id : Nat)

/-- Apply one operation; `none` models the fatal allocation panic. -/
def applyBpOp (bps : List Breakpoint) : BpOp → Option (List Breakpoint)
  | .add address => add_breakpoint bps address
  | .remove id => some (remove_breakpoint bps id)

/-- Run a sequence of operations from a given manager state. -/
def runBpOpsFrom (st : List Breakpoint) : List BpOp → Option (List Breakpoint)
  | [] => some st
  | op :: ops =>
    match applyBpOp st op with
    | none => none
    | some st' => runBpOpsFrom st' ops

/-- Run a sequence of operations starting from `BreakpointManager::new`
(the empty list). -/
def runBpOps (ops : List BpOp) : Option (List Breakpoint) :=
  runBpOpsFrom [] ops

/-- The manager's data invariant: every id is below 1024, ids are
pairwise distinct, and the list is sorted by id. -/
def bpInvariant (bps : List Breakpoint) : Prop :=
  (∀ b ∈ bps, b.id < 1024) ∧ (bps.map Breakpoint.id).Nodup ∧
    List.Sorted bpLe bps

/-! ### Command grammar and expression evaluator
(src/command.rs, src/eval.rs) -/

/-- `EvalExpr` (src/command.rs lines 30-38, together with the `Symbol`
variant consumed by src/eval.rs line 16).  The unit field that holds
the `+` leaf is dropped. -/
inductive EvalExpr
  | number (n : Nat)
  | add (x : EvalExpr) (y : EvalExpr)
  | symbol (s : String)
deriving DecidableEq, Repr

/-- `CommandExpr` (src/command.rs lines 10-27). -/
inductive CommandExpr
  | help
  | helpAlias
  | step
  | stepAlias
  | continueCmd
  | continueAlias
  | displayRegisters
  | displayRegistersAlias
  | displayBytes (e : EvalExpr)
  | displayBytesAlias (e : EvalExpr)
  | evaluate (e : EvalExpr)
  | evaluateAlias (e : EvalExpr)
  | listNearest (e : EvalExpr)
  | listNearestAlias (e : EvalExpr)
  | quit
  | quitAlias
deriving DecidableEq, Repr

/-- Lexical tokens of the command grammar: keyword/number words, the
`+` of the expression rule, and the `?` eval alias. -/
inductive Tok
  | word (s : String)
  | plus
  | question
deriving DecidableEq, Repr

/-- Characters that can make up a keyword or number token: letters,
digits, and the hyphen of `display-bytes` / `list-nearest`. -/
def isWordChar (c : Char) : Bool := c.isAlphanum || c == '-'

/-- Tokenizer for one input line, mirroring rust-sitter's lexing of the
grammar's literal leaves, its number pattern and the `\s` whitespace
extra (src/command.rs lines 7-44); `none` on a character no rule can
start with.  The fuel argument is the remaining input length plus one,
so it never runs out. -/
def tokenizeAux : Nat → List Char → Option (List Tok)
  | 0, _ => none
  | _ + 1, [] => some []
  | fuel + 1, c :: rest =>
    if c.isWhitespace then tokenizeAux fuel rest
    else if c == '+' then (tokenizeAux fuel rest).map (Tok.plus :: ·)
    else if c == '?' then (tokenizeAux fuel rest).map (Tok.question :: ·)
    else if isWordChar c then
      (tokenizeAux fuel ((c :: rest).dropWhile isWordChar)).map
        (Tok.word (String.mk ((c :: rest).takeWhile isWordChar)) :: ·)
    else none

/-- Tokenize a whole line. -/
def tokenize (s : String) : Option (List Tok) :=
  tokenizeAux (s.toList.length + 1) s.toList

/-- Hexadecimal digit, the `[0-9a-fA-F]` of the number pattern. -/
def isHexDigitB (c : Char) : Bool :=
  c.isDigit || (('a' ≤ c) && (c ≤ 'f')) || (('A' ≤ c) && (c ≤ 'F'))

/-- Value of a hexadecimal digit. -/
def hexDigitVal (c : Char) : Nat :=
  if c.isDigit then c.toNat - '0'.toNat
  else if ('a' ≤ c) && (c ≤ 'f') then c.toNat - 'a'.toNat + 10
  else c.toNat - 'A'.toNat + 10

/-- `parse_int` (src/command.rs lines 46-54) applied to a word token:
`none` when the word does not match the number pattern
`(\d+|0x[0-9a-fA-F]+)` (no grammar rule applies) or when the value
does not fit in a u64 (`from_str_radix(..).unwrap()` panics). -/
def parseIntWord (s : String) : Option Nat :=
  match s.toList with
  | '0' :: 'x' :: hex =>
    if hex ≠ [] ∧ hex.all isHexDigitB then
      let v := hex.foldl (fun acc c => 16 * acc + hexDigitVal c) 0
      if v < 2 ^ 64 then some v else none
    else none
  | cs =>
    if cs ≠ [] ∧ cs.all Char.isDigit then
      let v := cs.foldl (fun acc c => 10 * acc + (c.toNat - '0'.toNat)) 0
      if v < 2 ^ 64 then some v else none
    else none

/-- A number leaf of the expression grammar. -/
def parseNumTok : Tok → Option EvalExpr
  | .word w => (parseIntWord w).map EvalExpr.number
  | _ => none

/-- Left-associative folding of `<expr> + <expr>` (`prec_left(1)`,
src/command.rs lines 32-37). -/
def parseExprRest (acc : EvalExpr) : List Tok → Option EvalExpr
  | [] => some acc
  | .plus :: t :: rest =>
    match parseNumTok t with
    | some n => parseExprRest (.add acc n) rest
    | none => none
  | _ => none

/-- The expression rule over a token list; must consume it entirely. -/
def parseExprToks : List Tok → Option EvalExpr
  | t :: rest =>
    match parseNumTok t with
    | some n => parseExprRest n rest
    | none => none
  | [] => none

/-- The command rule of the grammar (src/command.rs lines 10-27) over
one input line, as consumed by `read_command` through `grammar::parse`
(src/command.rs line 128): one literal keyword (long form or alias),
followed by an expression for the commands that take one. -/
def parseCommand (s : String) : Option CommandExpr :=
  match tokenize s with
  | none => none
  | some toks =>
    match toks with
    | [.word "help"] => some .help
    | [.word "h"] => some .helpAlias
    | [.word "step"] => some .step
    | [.word "s"] => some .stepAlias
    | [.word "continue"] => some .continueCmd
    | [.word "c"] => some .continueAlias
    | [.word "registers"] => some .displayRegisters
    | [.word "r"] => some .displayRegistersAlias
    | [.word "quit"] => some .quit
    | [.word "q"] => some .quitAlias
    | .word "display-bytes" :: rest => (parseExprToks rest).map .displayBytes
    | .word "db" :: rest => (parseExprToks rest).map .displayBytesAlias
    | .word "eval" :: rest => (parseExprToks rest).map .evaluate
    | .question :: rest => (parseExprToks rest).map .evaluateAlias
    | .word "list-nearest" :: rest => (parseExprToks rest).map .listNearest
    | .word "ln" :: rest => (parseExprToks rest).map .listNearestAlias
    | _ => none

/-- `evaluate_expression` (src/eval.rs lines 12-20).  The evaluation
context is the process (src/eval.rs lines 7-9).  The outer Option
models panics (the `todo!()` on forwarder lookups reached through
`resolve_name_to_address`); `Except` carries the error strings.  `+`
is u64 addition, wrapping at 2^64. -/
def evaluate_expression : EvalExpr → Process → Option (Except String Nat)
  | .number x, _ => some (.ok x)
  | .add x y, p =>
    match evaluate_expression x p with
    | none => none
    | some (.error e) => some (.error e)
    | some (.ok a) =>
      match evaluate_expression y p with
      | none => none
      | some (.error e) => some (.error e)
      | some (.ok b) => some (.ok ((a + b) % 2 ^ 64))
  | .symbol s, p => resolve_name_to_address s p

/-- The `eval_expr` closure of `main_debugger_loop` (src/main.rs lines
154-164): `Ok` becomes the value, `Err` prints a message and becomes
`None`.  Outer `none` models a panic inside evaluation. -/
def eval_expr_opt (e : EvalExpr) (p : Process) : Option (Option Nat) :=
  match evaluate_expression e p with
  | none => none
  | some (.ok v) => some (some v)
  | some (.error _) => some Option.none

/-- Observable outcome of the `Evaluate` command arm (src/main.rs lines
195-199): the printed result line if any, the `continue_execution`
flag it leaves (always false), and whether it ends the session (it
never does).  Outer `none` models a panic. -/
def runEvaluateCmd (e : EvalExpr) (p : Process) :
    Option (Option String × Bool × Bool) :=
  match eval_expr_opt e p with
  | none => none
  | some Option.none => some (Option.none, false, false)
  | some (some v) => some (some (" = " ++ hexFmt v), false, false)

/-! ### Byte-level module parsing (src/memory.rs, src/module.rs)

This layer models the image parser down to the bytes a memory source
delivers.  Strings read from target memory are kept as their raw byte
lists (the trailing UTF-8 decoding, which panics on invalid input, is
not modelled; no claim concerns the decoded text), so the parser-level
types are `RawExport` / `RawModule` rather than the resolver-level
`Export` / `Module` above. -/

/-- A memory source, reduced to its `read_raw_memory` primitive
(src/memory.rs lines 8-14): up to `len` bytes starting at `address`;
a shorter result means the rest was unavailable. -/
def MemorySource : Type := Nat → Nat → List Nat

/-- The copy loop of `read_memory_array` (src/memory.rs lines 26-34):
split the raw bytes into consecutive `size`-byte element chunks,
dropping a trailing partial chunk.  The fuel is the raw length, enough
for every iteration since each consumes at least one byte. -/
def chunkBytesAux (size : Nat) : Nat → List Nat → List (List Nat)
  | 0, _ => []
  | fuel + 1, raw =>
    if 0 < size ∧ size ≤ raw.length then
      raw.take size :: chunkBytesAux size fuel (raw.drop size)
    else []

/-- Chunking of a full raw read. -/
def chunkBytes (size : Nat) (raw : List Nat) : List (List Nat) :=
  chunkBytesAux size raw.length raw

/-- Little-endian value of a byte chunk — the
`copy_nonoverlapping` reinterpretation of `read_memory_array` for the
integer element types u16/u32 on the little-endian target. -/
def leVal (bs : List Nat) : Nat := bs.foldr (fun b acc => b + 256 * acc) 0

/-- `read_memory_array::<T>` (src/memory.rs lines 17-36) for an integer
element type of byte width `size`. -/
def read_memory_array (src : MemorySource) (addr count size : Nat) : List Nat :=
  (chunkBytes size (src addr (count * size))).map leVal

/-- `read_memory_full_array::<T>` (src/memory.rs lines 39-50): exactly
`count` items or the error. -/
def read_memory_full_array (src : MemorySource) (addr count size : Nat) :
    Except String (List Nat) :=
  let arr := read_memory_array src addr count size
  if arr.length ≠ count then .error "Could not read all items" else .ok arr

/-- `read_memory_string` (src/memory.rs lines 61-83), narrow branch:
the bytes read (element size 1 makes `read_memory_array::<u8>` the raw
read itself) truncated at the first NUL. -/
def read_memory_string (src : MemorySource) (addr maxCount : Nat) : List Nat :=
  (src addr maxCount).takeWhile (fun b => b ≠ 0)

/-- One `IMAGE_DATA_DIRECTORY` entry. -/
structure DataDir where
  virtualAddress : Nat
  size : Nat
deriving DecidableEq, Repr

/-- The fields of `IMAGE_NT_HEADERS64` the parser uses:
`OptionalHeader.SizeOfImage` and the export (index 0) and debug
(index 6) data directories. -/
structure PeHeader where
  sizeOfImage : Nat
  exportDir : DataDir
  debugDir : DataDir
deriving DecidableEq, Repr

/-- The fields of `IMAGE_EXPORT_DIRECTORY` the parser uses. -/
structure ExportDirectory where
  name : Nat
  base : Nat
  numberOfFunctions : Nat
  numberOfNames : Nat
  addressOfFunctions : Nat
  addressOfNames : Nat
  addressOfNameOrdinals : Nat
deriving DecidableEq, Repr

/-- `read_memory_data::<IMAGE_DOS_HEADER>` (src/module.rs line 80)
reduced to the one field used, `e_lfanew` (offset 60 of the 64-byte
struct); `none` models the `data[0]` panic on a short read. -/
def readDosLfanew (src : MemorySource) (addr : Nat) : Option Nat :=
  let bytes := src addr 64
  if 64 ≤ bytes.length then some (leVal ((bytes.drop 60).take 4)) else none

/-- `read_memory_data::<IMAGE_NT_HEADERS64>` (src/module.rs line 87)
reduced to the fields used: `SizeOfImage` at offset 80 and the export
and debug data-directory entries at offsets 136 and 184 of the
264-byte struct; `none` models the `data[0]` panic on a short read. -/
def readNtHeaders (src : MemorySource) (addr : Nat) : Option PeHeader :=
  let bytes := src addr 264
  if 264 ≤ bytes.length then
    some { sizeOfImage := leVal ((bytes.drop 80).take 4)
           exportDir := ⟨leVal ((bytes.drop 136).take 4), leVal ((bytes.drop 140).take 4)⟩
           debugDir := ⟨leVal ((bytes.drop 184).take 4), leVal ((bytes.drop 188).take 4)⟩ }
  else none

/-- `read_memory_data::<IMAGE_EXPORT_DIRECTORY>` (src/module.rs line
176): the used fields at their offsets (Name@12, Base@16,
NumberOfFunctions@20, NumberOfNames@24, AddressOfFunctions@28,
AddressOfNames@32, AddressOfNameOrdinals@36) of the 40-byte struct;
`none` models the `data[0]` panic on a short read. -/
def readExportDirectory (src : MemorySource) (addr : Nat) :
    Option ExportDirectory :=
  let bytes := src addr 40
  if 40 ≤ bytes.length then
    some { name := leVal ((bytes.drop 12).take 4)
           base := leVal ((bytes.drop 16).take 4)
           numberOfFunctions := leVal ((bytes.drop 20).take 4)
           numberOfNames := leVal ((bytes.drop 24).take 4)
           addressOfFunctions := leVal ((bytes.drop 28).take 4)
           addressOfNames := leVal ((bytes.drop 32).take 4)
           addressOfNameOrdinals := leVal ((bytes.drop 36).take 4) }
  else none

/-- The fields of `IMAGE_DEBUG_DIRECTORY` the parser uses (Type@12,
SizeOfData@16, AddressOfRawData@20 of the 28-byte struct). -/
structure DebugDirEntry where
  typ : Nat
  sizeOfData : Nat
  addressOfRawData : Nat
deriving DecidableEq, Repr

/-- `read_memory_data::<IMAGE_DEBUG_DIRECTORY>` (src/module.rs line
128); `none` models the `data[0]` panic on a short read. -/
def readDebugDirEntry (src : MemorySource) (addr : Nat) :
    Option DebugDirEntry :=
  let bytes := src addr 28
  if 28 ≤ bytes.length then
    some ⟨leVal ((bytes.drop 12).take 4), leVal ((bytes.drop 16).take 4),
      leVal ((bytes.drop 20).take 4)⟩
  else none

/-- `PdbInfo` (src/module.rs lines 61-66): signature, 16 GUID bytes,
age — 24 bytes. -/
structure PdbInfoRec where
  signature : Nat
  guid : List Nat
  age : Nat
deriving DecidableEq, Repr

/-- `read_memory_data::<PdbInfo>` (src/module.rs line 131); `none`
models the `data[0]` panic on a short read. -/
def readPdbInfo (src : MemorySource) (addr : Nat) : Option PdbInfoRec :=
  let bytes := src addr 24
  if 24 ≤ bytes.length then
    some ⟨leVal (bytes.take 4), (bytes.drop 4).take 16,
      leVal ((bytes.drop 20).take 4)⟩
  else none

/-- `IMAGE_DEBUG_TYPE_CODEVIEW`. -/
def IMAGE_DEBUG_TYPE_CODEVIEW : Nat := 2

/-- The running result of `read_debug_info`: pdb info, pdb name bytes,
and the opened-pdb result. -/
def DebugInfoState : Type :=
  Option PdbInfoRec × Option (List Nat) × Except String (List PubSym)

/-- The entry loop of `Module::read_debug_info` (src/module.rs lines
126-158).  `openPdb` stands in for the external
`File::open`/`PDB::open` collaborators, mapping the pdb path bytes to
the opened store.  `dd.SizeOfData as usize - size_of::<PdbInfo>()` is
Nat subtraction (truncating instead of the debug-build underflow
panic).  `none` models a read panic. -/
def readDebugInfoAux (src : MemorySource)
    (openPdb : List Nat → Except String (List PubSym))
    (module_address va : Nat) :
    Nat → Nat → DebugInfoState → Option DebugInfoState
  | _, 0, st => some st
  | dir_index, remaining + 1, st =>
    match readDebugDirEntry src (module_address + va + dir_index * 28) with
    | none => none
    | some dd =>
      if dd.typ = IMAGE_DEBUG_TYPE_CODEVIEW then
        match readPdbInfo src (module_address + dd.addressOfRawData) with
        | none => none
        | some pi =>
          let pdb_name := read_memory_string src
            (module_address + dd.addressOfRawData + 24) (dd.sizeOfData - 24)
          readDebugInfoAux src openPdb module_address va (dir_index + 1) remaining
            (some pi, some pdb_name, openPdb pdb_name)
      else
        readDebugInfoAux src openPdb module_address va (dir_index + 1) remaining st

/-- `Module::read_debug_info` (src/module.rs lines 112-162): iterate at
most `min(Size / 28, 20)` debug-directory entries. -/
def read_debug_info (pe : PeHeader) (module_address : Nat)
    (src : MemorySource) (openPdb : List Nat → Except String (List PubSym)) :
    Option DebugInfoState :=
  if pe.debugDir.virtualAddress ≠ 0 then
    readDebugInfoAux src openPdb module_address pe.debugDir.virtualAddress 0
      (min (pe.debugDir.size / 28) 20)
      (Option.none, Option.none, .error "No matching PDB")
  else some (Option.none, Option.none, .error "No matching PDB")

/-- Parser-level `ExportTarget` with the forwarder string as raw
bytes. -/
inductive RawExportTarget
  | rvaTarget (addr : Nat)
  | forwarderTarget (name : List Nat)
deriving DecidableEq, Repr

/-- Parser-level `Export` with the name as raw bytes. -/
structure RawExport where
  name : Option (List Nat)
  ordinal : Nat
  target : RawExportTarget
deriving DecidableEq, Repr

/-- Parser-level `Module` (src/module.rs lines 20-30) as produced by
`from_memory_view`, names as raw bytes. -/
structure RawModule where
  name : List Nat
  address : Nat
  size : Nat
  exports : List RawExport
  pdbName : Option (List Nat)
  pdbInfo : Option PdbInfoRec
  pdb : Except String (List PubSym)

/-- The body of the export loop of `Module::read_exports`
(src/module.rs lines 194-213) for the entry with unbiased ordinal `i`
and raw address-table value `fa`; `i % 2^16` is the
`unbiased_ordinal as u16` cast. -/
def mkRawExport (src : MemorySource)
    (module_address export_table_addr export_table_end base : Nat)
    (ordinal_array name_array : List Nat) (i fa : Nat) : RawExport :=
  let target_addr := module_address + fa
  let name_index := ordinal_array.findIdx? (fun o => o == i % 2 ^ 16)
  let export_name := name_index.map (fun idx =>
    read_memory_string src (module_address + name_array.getD idx 0) 4096)
  let target : RawExportTarget :=
    if export_table_addr ≤ target_addr ∧ target_addr < export_table_end then
      .forwarderTarget (read_memory_string src target_addr 4096)
    else .rvaTarget target_addr
  { name := export_name, ordinal := base + i, target := target }

/-- `Module::read_exports` (src/module.rs lines 164-217).  Outer `none`
models a `data[0]` read panic; the `Except` layer is the function's own
error return, fed by the three exact-length array reads. -/
def read_exports (pe : PeHeader) (module_address : Nat) (src : MemorySource) :
    Option (Except String (List RawExport × Option (List Nat))) :=
  if pe.exportDir.virtualAddress ≠ 0 then
    let export_table_addr := module_address + pe.exportDir.virtualAddress
    let export_table_end := export_table_addr + pe.exportDir.size
    match readExportDirectory src export_table_addr with
    | none => none
    | some ed =>
      let module_name : Option (List Nat) :=
        if ed.name ≠ 0 then
          some (read_memory_string src (module_address + ed.name) 512)
        else none
      match read_memory_full_array src (module_address + ed.addressOfNameOrdinals)
          ed.numberOfNames 2 with
      | .error e => some (.error e)
      | .ok ordinal_array =>
        match read_memory_full_array src (module_address + ed.addressOfNames)
            ed.numberOfNames 4 with
        | .error e => some (.error e)
        | .ok name_array =>
          match read_memory_full_array src (module_address + ed.addressOfFunctions)
              ed.numberOfFunctions 4 with
          | .error e => some (.error e)
          | .ok address_table =>
            some (.ok (address_table.enum.map (fun pr =>
              mkRawExport src module_address export_table_addr export_table_end
                ed.base ordinal_array name_array pr.1 pr.2), module_name))
  else some (.ok ([], Option.none))

/-- `{module_address:X}`: uppercase hexadecimal without prefix. -/
def hexUpperFmt (n : Nat) : String :=
  String.mk ((Nat.toDigits 16 n).map Char.toUpper)

/-- A string constant as its byte list. -/
def strBytes (s : String) : List Nat := s.toList.map Char.toNat

/-- The synthesized fallback module name `module_<HEX>` (src/module.rs
line 94). -/
def fallbackName (addr : Nat) : List Nat :=
  strBytes ("module_" ++ hexUpperFmt addr)

/-- `Module::from_memory_view` (src/module.rs lines 75-105) —
`parse_module` in the spec.  The name hint is byte-valued like the
other strings of this layer.  Outer `none` models a read panic;
`Except.error` is the load error propagated from `read_exports` by the
`?` operator. -/
def from_memory_view (module_address : Nat) (module_name : Option (List Nat))
    (src : MemorySource) (openPdb : List Nat → Except String (List PubSym)) :
    Option (Except String RawModule) :=
  match readDosLfanew src module_address with
  | none => none
  | some e_lfanew =>
    match readNtHeaders src (module_address + e_lfanew) with
    | none => none
    | some pe =>
      match read_debug_info pe module_address src openPdb with
      | none => none
      | some (pdb_info, pdb_name, pdb) =>
        match read_exports pe module_address src with
        | none => none
        | some (.error e) => some (.error e)
        | some (.ok (exports, export_table_module_name)) =>
          let name := match module_name with
            | some n => n
            | none =>
              match export_table_module_name with
              | some n => n
              | none => fallbackName module_address
          some (.ok { name := name, address := module_address,
                      size := pe.sizeOfImage, exports := exports,
                      pdbName := pdb_name, pdbInfo := pdb_info, pdb := pdb })

/-- Concrete memory source for the C4 witness: an export directory at
0x100 (size 48) with two address-table entries at 0x200 — one raw
target inside the directory (a forwarder whose string is the byte 88)
and one outside (an RVA code target). -/
def srcC4 : MemorySource := fun addr len =>
  if addr = 0x100 ∧ len = 40 then
    [0, 0, 0, 0, 0, 0, 0, 0, 0, 0, 0, 0, 0, 0, 0, 0, 1, 0, 0, 0,
     2, 0, 0, 0, 0, 0, 0, 0, 0, 2, 0, 0, 0, 3, 0, 0, 0, 3, 0, 0]
  else if addr = 0x200 ∧ len = 8 then [16, 1, 0, 0, 0, 16, 0, 0]
  else if addr = 0x110 ∧ len = 4096 then [88, 0]
  else []

/-- The PE header matching `srcC4`. -/
def peC4 : PeHeader := ⟨0x5000, ⟨0x100, 48⟩, ⟨0, 0⟩⟩

/-- Concrete memory source for the C9 witness: valid DOS and NT
headers at 0x10000 pointing at an export directory at 0x10100 that
declares two names, but the ordinal array at 0x10400 reads back
empty. -/
def srcC9 : MemorySource := fun addr len =>
  if addr = 0x10000 ∧ len = 64 then List.replicate 60 0 ++ [64, 0, 0, 0]
  else if addr = 0x10040 ∧ len = 264 then
    List.replicate 136 0 ++ [0, 1, 0, 0, 48, 0, 0, 0] ++ List.replicate 120 0
  else if addr = 0x10100 ∧ len = 40 then
    List.replicate 24 0 ++ [2, 0, 0, 0, 0, 5, 0, 0, 0, 4, 0, 0, 0, 4, 0, 0]
  else []

/-- The pdb opener that always fails, for witnesses. -/
def openPdbNone : List Nat → Except String (List PubSym) :=
  fun _ => .error "No matching PDB"

end Debugger

namespace Debugger

/-- C1: after a `step` command arms a thread's `expect_step_exception`
flag, the very next exception event for that same (process, thread) key
is consumed (flag cleared, no report printed, status left `Continue`)
if and only if it carries the single-step exception code; an exception
on a different (unarmed) thread, or a non-single-step exception on the
same thread, is reported and sets the status to `ExceptionNotHandled`.
The step arms exactly the one key it is issued on. -/
theorem step_exception_protocol (ts : ThreadStates) (k : Key) (b : Bool)
    (hreg : ts k = some b) (fc fc' : Bool) :
    ∃ ts1, step_arm ts k = some ts1 ∧
      ts1 k = some true ∧ (∀ j, j ≠ k → ts1 j = ts j) ∧
      (∃ ts2, handle_exception ts1 k fc EXCEPTION_CODE_SINGLE_STEP =
          some (ts2, none, .cont) ∧
        ts2 k = some false ∧ ∀ j, j ≠ k → ts2 j = ts1 j) ∧
      (∀ code, code ≠ EXCEPTION_CODE_SINGLE_STEP →
        ∃ msg, handle_exception ts1 k fc code =
          some (ts1, some msg, .exceptionNotHandled)) ∧
      (∀ k' code', k' ≠ k → ts k' = some false →
        ∃ msg, handle_exception ts1 k' fc' code' =
          some (ts1, some msg, .exceptionNotHandled)) := by
  refine ⟨updateTS ts k true, ?_, ?_, ?_, ?_, ?_, ?_⟩
  · simp [step_arm, hreg]
  · simp [updateTS]
  · intro j hj
    simp [updateTS, hj]
  · refine ⟨updateTS (updateTS ts k true) k false, ?_, ?_, ?_⟩
    · simp [handle_exception, updateTS]
    · simp [updateTS]
    · intro j hj
      simp [updateTS, hj]
  · intro code hcode
    refine ⟨"Exception code " ++ hexFmt code ++ " (" ++ chance_string fc ++ ")", ?_⟩
    have hbeq : (code == EXCEPTION_CODE_SINGLE_STEP) = false := by
      simpa using hcode
    simp [handle_exception, updateTS, hbeq]
  · intro k' code' hk' hflag
    refine ⟨"Exception code " ++ hexFmt code' ++ " (" ++ chance_string fc' ++ ")", ?_⟩
    have h1 : updateTS ts k true k' = some false := by
      simp [updateTS, hk', hflag]
    simp [handle_exception, h1]

/-- Witness for C1 at a concrete map: process 1, threads 1 and 2. -/
theorem step_exception_protocol_witness :
    ∃ ts1, step_arm tsExample (1, 1) = some ts1 ∧
      ts1 (1, 1) = some true ∧ (∀ j, j ≠ (1, 1) → ts1 j = tsExample j) ∧
      (∃ ts2, handle_exception ts1 (1, 1) true EXCEPTION_CODE_SINGLE_STEP =
          some (ts2, none, .cont) ∧
        ts2 (1, 1) = some false ∧ ∀ j, j ≠ (1, 1) → ts2 j = ts1 j) ∧
      (∀ code, code ≠ EXCEPTION_CODE_SINGLE_STEP →
        ∃ msg, handle_exception ts1 (1, 1) true code =
          some (ts1, some msg, .exceptionNotHandled)) ∧
      (∀ k' code', k' ≠ (1, 1) → tsExample k' = some false →
        ∃ msg, handle_exception ts1 k' false code' =
          some (ts1, some msg, .exceptionNotHandled)) :=
  step_exception_protocol tsExample (1, 1) false (by decide) true false

/-- C10: whenever the Exception arm prints a report (the event was not
consumed as a step completion), the report's chance label is the
inverse of the event's `first_chance` flag: `"second chance"` when the
flag is true, `"first chance"` when it is false — and the continuation
status is set to `ExceptionNotHandled`. -/
theorem exception_report_inverted_chance_label (ts : ThreadStates) (k : Key)
    (fc : Bool) (code : Nat) (ts2 : ThreadStates) (msg : String)
    (s : DebugContinueStatus)
    (h : handle_exception ts k fc code = some (ts2, some msg, s)) :
    msg = "Exception code " ++ hexFmt code ++ " (" ++
      (if fc then "second chance" else "first chance") ++ ")" ∧
    s = .exceptionNotHandled := by
  cases hk : ts k with
  | none => simp [handle_exception, hk] at h
  | some expect =>
    by_cases hc : expect && (code == EXCEPTION_CODE_SINGLE_STEP)
    · simp [handle_exception, hk, hc] at h
    · simp only [handle_exception, hk] at h
      rw [if_neg hc] at h
      simp only [Option.some.injEq, Prod.mk.injEq] at h
      obtain ⟨-, hmsg, hs⟩ := h
      exact ⟨by rw [← hmsg]; rfl, hs.symm⟩

/-- Witness for C10 at a concrete reported exception (code 5,
first_chance = true, labelled "second chance"). -/
theorem exception_report_inverted_chance_label_witness :
    "Exception code 0x5 (second chance)" = "Exception code " ++ hexFmt 5 ++ " (" ++
      (if true then "second chance" else "first chance") ++ ")" ∧
    DebugContinueStatus.exceptionNotHandled = .exceptionNotHandled :=
  exception_report_inverted_chance_label tsExample (1, 2) true 5 tsExample
    "Exception code 0x5 (second chance)" .exceptionNotHandled rfl

/-! Helper lemmas about the export scan of resolve_address_to_name. -/

theorem scanExports_no_candidate (address : Nat) (l : List Export)
    (h : ∀ e ∈ l, ∀ a, e.target = .rva a → ¬ a ≤ address) (st : AddressMatch × Nat) :
    scanExports address l st = st := by
  induction l generalizing st with
  | nil => rfl
  | cons e rest ih =>
    obtain ⟨c, ca⟩ := st
    cases he : e.target with
    | rva av =>
      have hav : ¬ av ≤ address := h e (List.mem_cons_self _ _) av he
      have hcond : ¬ (av ≤ address ∧ (c.isNoneB = true ∨ ca < av)) := fun hc => hav hc.1
      simp only [scanExports, he, if_neg hcond]
      exact ih (fun e' he' a' ht' => h e' (List.mem_cons_of_mem _ he') a' ht') _
    | forwarder s =>
      simp only [scanExports, he]
      exact ih (fun e' he' a' ht' => h e' (List.mem_cons_of_mem _ he') a' ht') _

theorem scanExports_export_state (address : Nat) (l : List Export) :
    ∀ e0 a0, a0 ≤ address →
    ∃ e a, scanExports address l (.exportM e0, a0) = (.exportM e, a) ∧
      a ≤ address ∧ a0 ≤ a ∧
      ((e = e0 ∧ a = a0) ∨ (e ∈ l ∧ e.target = .rva a)) ∧
      (∀ e' a', e' ∈ l → e'.target = .rva a' → a' ≤ address → a' ≤ a) := by
  induction l with
  | nil =>
    intro e0 a0 h0
    exact ⟨e0, a0, rfl, h0, le_refl _, Or.inl ⟨rfl, rfl⟩, by simp⟩
  | cons e rest ih =>
    intro e0 a0 h0
    cases he : e.target with
    | forwarder s =>
      obtain ⟨e1, a1, heq, h1, hmono, hsrc, hmax⟩ := ih e0 a0 h0
      refine ⟨e1, a1, ?_, h1, hmono, ?_, ?_⟩
      · simp only [scanExports, he]; exact heq
      · rcases hsrc with h | ⟨hm, ht⟩
        · exact Or.inl h
        · exact Or.inr ⟨List.mem_cons_of_mem _ hm, ht⟩
      · intro e' a' hm' ht' ha'
        rcases List.mem_cons.mp hm' with rfl | hm'
        · rw [he] at ht'; cases ht'
        · exact hmax e' a' hm' ht' ha'
    | rva av =>
      by_cases hc : av ≤ address ∧ ((AddressMatch.exportM e0).isNoneB = true ∨ a0 < av)
      · obtain ⟨e1, a1, heq, h1, hmono, hsrc, hmax⟩ := ih e av hc.1
        have hlt : a0 < av := by
          rcases hc.2 with h | h
          · exact absurd h (by simp [AddressMatch.isNoneB])
          · exact h
        refine ⟨e1, a1, ?_, h1, le_of_lt (lt_of_lt_of_le hlt hmono), ?_, ?_⟩
        · simp only [scanExports, he, if_pos hc]; exact heq
        · rcases hsrc with ⟨h1e, h1a⟩ | ⟨hm, ht⟩
          · exact Or.inr ⟨by rw [h1e]; exact List.mem_cons_self _ _,
              by rw [h1e, h1a]; exact he⟩
          · exact Or.inr ⟨List.mem_cons_of_mem _ hm, ht⟩
        · intro e' a' hm' ht' ha'
          rcases List.mem_cons.mp hm' with rfl | hm'
          · rw [he] at ht'; injection ht' with hh; exact hh ▸ hmono
          · exact hmax e' a' hm' ht' ha'
      · obtain ⟨e1, a1, heq, h1, hmono, hsrc, hmax⟩ := ih e0 a0 h0
        refine ⟨e1, a1, ?_, h1, hmono, ?_, ?_⟩
        · simp only [scanExports, he, if_neg hc]; exact heq
        · rcases hsrc with h | ⟨hm, ht⟩
          · exact Or.inl h
          · exact Or.inr ⟨List.mem_cons_of_mem _ hm, ht⟩
        · intro e' a' hm' ht' ha'
          rcases List.mem_cons.mp hm' with rfl | hm'
          · rw [he] at ht'; injection ht' with hh
            push_neg at hc
            have hava : av ≤ address := by rw [hh]; exact ha'
            have hle0 : av ≤ a0 := (hc hava).2
            rw [← hh]
            exact le_trans hle0 hmono
          · exact hmax e' a' hm' ht' ha'

theorem scanExports_from_none (address : Nat) (l : List Export) :
    (scanExports address l (AddressMatch.none, 0) = (AddressMatch.none, 0) ∧
      ∀ e a, e ∈ l → e.target = .rva a → ¬ a ≤ address) ∨
    (∃ e a, scanExports address l (AddressMatch.none, 0) = (.exportM e, a) ∧
      e ∈ l ∧ e.target = .rva a ∧ a ≤ address ∧
      ∀ e' a', e' ∈ l → e'.target = .rva a' → a' ≤ address → a' ≤ a) := by
  induction l with
  | nil => exact Or.inl ⟨rfl, by simp⟩
  | cons e rest ih =>
    cases he : e.target with
    | forwarder s =>
      rcases ih with ⟨hres, hno⟩ | ⟨e1, a1, heq, hm, ht, hle, hmax⟩
      · refine Or.inl ⟨?_, ?_⟩
        · simp only [scanExports, he]; exact hres
        · intro e' a' hm' ht'
          rcases List.mem_cons.mp hm' with rfl | hm'
          · rw [he] at ht'; cases ht'
          · exact hno e' a' hm' ht'
      · refine Or.inr ⟨e1, a1, ?_, List.mem_cons_of_mem _ hm, ht, hle, ?_⟩
        · simp only [scanExports, he]; exact heq
        · intro e' a' hm' ht' ha'
          rcases List.mem_cons.mp hm' with rfl | hm'
          · rw [he] at ht'; cases ht'
          · exact hmax e' a' hm' ht' ha'
    | rva av =>
      by_cases hav : av ≤ address
      · have hcond : av ≤ address ∧
            ((AddressMatch.none).isNoneB = true ∨ (0 : Nat) < av) := ⟨hav, Or.inl rfl⟩
        obtain ⟨e1, a1, heq, h1, hmono, hsrc, hmax⟩ :=
          scanExports_export_state address rest e av hav
        refine Or.inr ⟨e1, a1, ?_, ?_, ?_, h1, ?_⟩
        · simp only [scanExports, he, if_pos hcond]; exact heq
        · rcases hsrc with ⟨h1e, -⟩ | ⟨hm, -⟩
          · rw [h1e]; exact List.mem_cons_self _ _
          · exact List.mem_cons_of_mem _ hm
        · rcases hsrc with ⟨h1e, h1a⟩ | ⟨-, ht⟩
          · rw [h1e, h1a]; exact he
          · exact ht
        · intro e' a' hm' ht' ha'
          rcases List.mem_cons.mp hm' with rfl | hm'
          · rw [he] at ht'; injection ht' with hh; exact hh ▸ hmono
          · exact hmax e' a' hm' ht' ha'
      · have hcond : ¬ (av ≤ address ∧
            ((AddressMatch.none).isNoneB = true ∨ (0 : Nat) < av)) := fun hcc => hav hcc.1
        rcases ih with ⟨hres, hno⟩ | ⟨e1, a1, heq, hm, ht, hle, hmax⟩
        · refine Or.inl ⟨?_, ?_⟩
          · simp only [scanExports, he, if_neg hcond]; exact hres
          · intro e' a' hm' ht'
            rcases List.mem_cons.mp hm' with rfl | hm'
            · rw [he] at ht'; injection ht' with hh; exact hh ▸ hav
            · exact hno e' a' hm' ht'
        · refine Or.inr ⟨e1, a1, ?_, List.mem_cons_of_mem _ hm, ht, hle, ?_⟩
          · simp only [scanExports, he, if_neg hcond]; exact heq
          · intro e' a' hm' ht' ha'
            rcases List.mem_cons.mp hm' with rfl | hm'
            · rw [he] at ht'; injection ht' with hh; exact absurd ha' (hh ▸ hav)
            · exact hmax e' a' hm' ht' ha'

/-- C2: for every address and process, `resolve_address_to_name` returns
nothing when no module's `[address, address+size)` range contains the
query address; otherwise (for a containing module without symbol-store
symbols, considering only RVA-type exports) it picks the export with
the numerically greatest resolved address that is at most the query
address, formats `module!symbol` when the offset is zero and
`module!symbol+0x<offset>` otherwise, and returns nothing when no
export precedes the query address. -/
theorem resolve_address_export_policy (p : Process) (address : Nat) :
    ((∀ m ∈ p.modules, m.contains_address address = false) →
        resolve_address_to_name address p = Option.none) ∧
    (∀ m, p.get_containing_module address = some m → noSymbolStore m →
      ((∀ e a, e ∈ m.exports → e.target = .rva a → ¬ a ≤ address) →
          resolve_address_to_name address p = Option.none) ∧
      (∀ e0 a0, e0 ∈ m.exports → e0.target = .rva a0 → a0 ≤ address →
        ∃ e' a', e' ∈ m.exports ∧ e'.target = .rva a' ∧ a' ≤ address ∧
          (∀ e2 a2, e2 ∈ m.exports → e2.target = .rva a2 → a2 ≤ address → a2 ≤ a') ∧
          resolve_address_to_name address p =
            some (if address - a' = 0 then m.name ++ "!" ++ e'.display
                  else m.name ++ "!" ++ e'.display ++ "+" ++ hexFmt (address - a')))) := by
  constructor
  · intro h
    have hnone : p.get_containing_module address = Option.none := by
      unfold Process.get_containing_module
      exact List.find?_eq_none.mpr (fun m hm => by simp [h m hm])
    simp [resolve_address_to_name, hnone]
  · intro m hm hstore
    rcases scanExports_from_none address m.exports with
      ⟨hres0, hno⟩ | ⟨e1, a1, heq, hm1, ht1, hle1, hmax1⟩
    · constructor
      · intro _
        rcases hstore with ⟨er, hp⟩ | hp
        · simp only [resolve_address_to_name, hm, hp, hres0]
        · simp only [resolve_address_to_name, hm, hp, hres0, scanPdb]
      · intro e0 a0 hm0 ht0 ha0
        exact absurd ha0 (hno e0 a0 hm0 ht0)
    · constructor
      · intro hnone
        exact absurd hle1 (hnone e1 a1 hm1 ht1)
      · intro e0 a0 hm0 ht0 ha0
        refine ⟨e1, a1, hm1, ht1, hle1, hmax1, ?_⟩
        rcases hstore with ⟨er, hp⟩ | hp
        · simp only [resolve_address_to_name, hm, hp, heq, formatSym]
        · simp only [resolve_address_to_name, hm, hp, heq, scanPdb, formatSym]

/-- Witness for C2 on the spec's example: module with exports A@0x1000
and B@0x1010 and no symbol store; address 0x1005 resolves through the
nearest preceding export A, and address 0x100 (before all exports)
resolves to nothing. -/
theorem resolve_address_export_policy_witness :
    resolve_address_to_name 0x100 procAB = Option.none ∧
    (∃ e' a', e' ∈ modAB.exports ∧ e'.target = .rva a' ∧ a' ≤ 0x1005 ∧
      (∀ e2 a2, e2 ∈ modAB.exports → e2.target = .rva a2 → a2 ≤ 0x1005 → a2 ≤ a') ∧
      resolve_address_to_name 0x1005 procAB =
        some (if 0x1005 - a' = 0 then modAB.name ++ "!" ++ e'.display
              else modAB.name ++ "!" ++ e'.display ++ "+" ++ hexFmt (0x1005 - a'))) := by
  constructor
  · refine ((resolve_address_export_policy procAB 0x100).2 modAB rfl
      (Or.inl ⟨"No matching PDB", rfl⟩)).1 ?_
    intro e a hm ht hle
    simp only [modAB, List.mem_cons, List.mem_singleton, List.not_mem_nil] at hm
    rcases hm with rfl | rfl | h
    · injection ht with hh; omega
    · injection ht with hh; omega
    · cases h
  · exact ((resolve_address_export_policy procAB 0x1005).2 modAB rfl
      (Or.inl ⟨"No matching PDB", rfl⟩)).2
      ⟨some "A", 1, .rva 0x1000⟩ 0x1000 (by simp [modAB]) rfl (by omega)

/-- C3: when both an export candidate and a symbol-store
public-function candidate precede the query address, the symbol-store
candidate is preferred if and only if its absolute address is at least
the export candidate's address (the store wins ties and later-or-equal
matches); otherwise the export candidate is used. -/
theorem resolve_address_store_tiebreak (p : Process) (address : Nat) (m : Module)
    (hm : p.get_containing_module address = some m)
    (s : PubSym) (hpdb : m.pdb = .ok [s]) (hf : s.function = true)
    (e : Export) (ae : Nat)
    (hscan : scanExports address m.exports (AddressMatch.none, 0) = (.exportM e, ae))
    (hga : m.address + s.rva ≤ address) :
    (ae ≤ m.address + s.rva →
      resolve_address_to_name address p =
        some (formatSym m.name s.name (address - (m.address + s.rva)))) ∧
    (m.address + s.rva < ae →
      resolve_address_to_name address p =
        some (formatSym m.name e.display (address - ae))) := by
  constructor
  · intro hle
    have hcond : m.address + s.rva ≤ address ∧
        ((AddressMatch.exportM e).isNoneB = true ∨ ae ≤ m.address + s.rva) :=
      ⟨hga, Or.inr hle⟩
    simp only [resolve_address_to_name, hm, hpdb, hscan, scanPdb, hf,
      if_pos hcond, if_true]
  · intro hlt
    have hcond : ¬ (m.address + s.rva ≤ address ∧
        ((AddressMatch.exportM e).isNoneB = true ∨ ae ≤ m.address + s.rva)) := by
      rintro ⟨-, h | h⟩
      · exact absurd h (by simp [AddressMatch.isNoneB])
      · omega
    simp only [resolve_address_to_name, hm, hpdb, hscan, scanPdb, hf,
      if_neg hcond, if_true]

/-- Witness for C3 in both tie-break directions and the exact tie, with
literal addresses: store candidate at 0x1008 beats export at 0x1000;
export at 0x1008 beats store candidate at 0x1000; on an exact tie at
0x1008 the store candidate wins. -/
theorem resolve_address_store_tiebreak_witness :
    resolve_address_to_name 0x1009 procStoreLate =
      some (formatSym "m" "C" (0x1009 - (0 + 0x1008))) ∧
    resolve_address_to_name 0x1009 procStoreEarly =
      some (formatSym "m" (Export.display ⟨some "A", 1, .rva 0x1008⟩) (0x1009 - 0x1008)) ∧
    resolve_address_to_name 0x1009 procStoreTie =
      some (formatSym "m" "C" (0x1009 - (0 + 0x1008))) := by
  refine ⟨?_, ?_, ?_⟩
  · exact (resolve_address_store_tiebreak procStoreLate 0x1009 modStoreLate rfl
      ⟨"C", true, 0x1008⟩ rfl rfl ⟨some "A", 1, .rva 0x1000⟩ 0x1000 (by decide)
      (by decide)).1 (by decide)
  · exact (resolve_address_store_tiebreak procStoreEarly 0x1009 modStoreEarly rfl
      ⟨"C", true, 0x1000⟩ rfl rfl ⟨some "A", 1, .rva 0x1008⟩ 0x1008 (by decide)
      (by decide)).2 (by decide)
  · exact (resolve_address_store_tiebreak procStoreTie 0x1009 modStoreTie rfl
      ⟨"C", true, 0x1008⟩ rfl rfl ⟨some "A", 1, .rva 0x1008⟩ 0x1008 (by decide)
      (by decide)).1 (by decide)

/-- C5 counterexample: with a module loaded from a path ending in
`\kernel32.dll`, the qualified lookup `kernel32!ExitProcess` does NOT
resolve identically to a module named exactly `kernel32`: the exact
name finds the export, the path-named module is not found at all,
because the trimmed comparison keeps the `.dll` extension. -/
theorem module_name_trimmed_match_counterexample :
    resolve_name_to_address "kernel32!ExitProcess" procExact = some (.ok 0x7000) ∧
    resolve_name_to_address "kernel32!ExitProcess" procPath =
      some (.error "Could not find module kernel32") ∧
    resolve_name_to_address "kernel32!ExitProcess" procExact ≠
      resolve_name_to_address "kernel32!ExitProcess" procPath := by
  refine ⟨rfl, rfl, ?_⟩
  intro h
  rw [show resolve_name_to_address "kernel32!ExitProcess" procExact =
        some (.ok 0x7000) from rfl,
      show resolve_name_to_address "kernel32!ExitProcess" procPath =
        some (.error "Could not find module kernel32") from rfl] at h
  simp at h

/-- Helper for C5: `get_module_by_name` returns the first exactly-named
module no matter what trimmed matches occur earlier in iteration
order. -/
theorem getModuleByNameAux_exact (q : String) (m : Module) (hm : m.name = q) :
    ∀ ms1 : List Module, (∀ m' ∈ ms1, m'.name ≠ q) → ∀ (ms2 : List Module)
      (pot : Option Module), getModuleByNameAux q (ms1 ++ m :: ms2) pot = some m := by
  intro ms1
  induction ms1 with
  | nil =>
    intro _ ms2 pot
    simp [getModuleByNameAux, hm]
  | cons m0 rest ih =>
    intro hno ms2 pot
    have hne : ¬ (m0.name = q) := hno m0 (List.mem_cons_self _ _)
    simp only [List.cons_append, getModuleByNameAux, if_neg hne]
    exact ih (fun x hx => hno x (List.mem_cons_of_mem _ hx)) ms2 _

/-- C5 amended: the module is located by exact name, else by
case-insensitive comparison of the final path component (kept whole,
including any extension) against the given module name; an exact match
always takes priority over a trimmed match even when the trimmed match
appears earlier; in particular the query module name `kernel32.dll`
resolves identically against a module named exactly `kernel32.dll` and
against one whose name is a path ending in `\KERNEL32.DLL`. -/
theorem module_lookup_amended :
    (∀ (q : String) (ms1 : List Module) (m : Module) (ms2 : List Module)
        (thr : List Nat), m.name = q → (∀ m' ∈ ms1, m'.name ≠ q) →
      Process.get_module_by_name ⟨ms1 ++ m :: ms2, thr⟩ q = some m) ∧
    resolve_name_to_address "kernel32.dll!ExitProcess" procExactDll =
      some (.ok 0x7000) ∧
    resolve_name_to_address "kernel32.dll!ExitProcess" procPathUpper =
      some (.ok 0x7000) := by
  refine ⟨?_, rfl, rfl⟩
  intro q ms1 m ms2 thr hm hno
  exact getModuleByNameAux_exact q m hm ms1 hno ms2 Option.none

/-- Witness for C5 amended: an exactly-named `kernel32.dll` module is
found even though a case-insensitively trimmed-matching path module
appears before it in iteration order. -/
theorem module_lookup_amended_witness :
    Process.get_module_by_name ⟨[modPathUpper] ++ modExactDll :: [], []⟩
      "kernel32.dll" = some modExactDll :=
  module_lookup_amended.1 "kernel32.dll" [modPathUpper] modExactDll [] [] rfl
    (by
      intro m' hm'
      simp only [List.mem_singleton] at hm'
      subst hm'
      decide)

/-! Helper lemmas for the breakpoint manager. -/

theorem freeIdAux_some (bps : List Breakpoint) :
    ∀ fuel i n, freeIdAux bps i fuel = some n →
      i ≤ n ∧ n < i + fuel ∧ (∀ b ∈ bps, b.id ≠ n) ∧
      ∀ m, i ≤ m → m < n → ∃ b ∈ bps, b.id = m := by
  intro fuel
  induction fuel with
  | zero => intro i n h; cases h
  | succ fuel ih =>
    intro i n h
    by_cases hu : bps.any (fun b => b.id == i)
    · rw [freeIdAux, if_pos hu] at h
      obtain ⟨h1, h2, h3, h4⟩ := ih (i + 1) n h
      refine ⟨by omega, by omega, h3, ?_⟩
      intro m hm1 hm2
      rcases Nat.eq_or_lt_of_le hm1 with rfl | hlt
      · obtain ⟨b, hb, hbid⟩ := List.any_eq_true.mp hu
        exact ⟨b, hb, by simpa using hbid⟩
      · exact h4 m hlt hm2
    · rw [freeIdAux, if_neg hu] at h
      injection h with h
      subst h
      refine ⟨le_refl _, by omega, ?_, ?_⟩
      · intro b hb hbid
        exact hu (List.any_eq_true.mpr ⟨b, hb, by simp [hbid]⟩)
      · intro m hm1 hm2
        omega

theorem freeIdAux_none (bps : List Breakpoint) :
    ∀ fuel i, freeIdAux bps i fuel = none →
      ∀ m, i ≤ m → m < i + fuel → ∃ b ∈ bps, b.id = m := by
  intro fuel
  induction fuel with
  | zero => intro i _ m h1 h2; omega
  | succ fuel ih =>
    intro i h m hm1 hm2
    by_cases hu : bps.any (fun b => b.id == i)
    · rw [freeIdAux, if_pos hu] at h
      rcases Nat.eq_or_lt_of_le hm1 with rfl | hlt
      · obtain ⟨b, hb, hbid⟩ := List.any_eq_true.mp hu
        exact ⟨b, hb, by simpa using hbid⟩
      · exact ih (i + 1) h m hlt (by omega)
    · rw [freeIdAux, if_neg hu] at h
      cases h

theorem bpInvariant_add (bps : List Breakpoint) (address : Nat)
    (bps' : List Breakpoint) (hinv : bpInvariant bps)
    (h : add_breakpoint bps address = some bps') : bpInvariant bps' := by
  unfold add_breakpoint at h
  cases hf : get_free_id bps with
  | none => rw [hf] at h; cases h
  | some n =>
    rw [hf] at h
    injection h with h
    subst h
    obtain ⟨hlt, hnodup, -⟩ := hinv
    obtain ⟨-, hn1024, hunused, -⟩ := freeIdAux_some bps 1024 0 n hf
    have hperm : (sortById (bps ++ [⟨n, address⟩])).Perm (bps ++ [⟨n, address⟩]) :=
      List.perm_insertionSort bpLe _
    refine ⟨?_, ?_, List.sorted_insertionSort bpLe _⟩
    · intro b hb
      have hb2 : b ∈ bps ++ [⟨n, address⟩] := hperm.mem_iff.mp hb
      rcases List.mem_append.mp hb2 with hb3 | hb3
      · exact hlt b hb3
      · simp only [List.mem_singleton] at hb3
        subst hb3
        simpa using hn1024
    · have hnodup2 : ((bps ++ [Breakpoint.mk n address]).map Breakpoint.id).Nodup := by
        rw [List.map_append]
        refine List.Nodup.append hnodup (by simp) ?_
        intro x hx1 hx2
        simp only [List.map_cons, List.map_nil, List.mem_singleton] at hx2
        subst hx2
        obtain ⟨b, hb, hbid⟩ := List.mem_map.mp hx1
        exact hunused b hb hbid
      exact ((hperm.map Breakpoint.id).nodup_iff).mpr hnodup2

theorem bpInvariant_remove (bps : List Breakpoint) (id : Nat)
    (hinv : bpInvariant bps) : bpInvariant (remove_breakpoint bps id) := by
  obtain ⟨hlt, hnodup, hsort⟩ := hinv
  refine ⟨?_, ?_, ?_⟩
  · intro b hb
    exact hlt b (List.mem_of_mem_filter hb)
  · exact List.Nodup.sublist
      (List.Sublist.map Breakpoint.id (List.filter_sublist bps)) hnodup
  · exact List.Pairwise.sublist (List.filter_sublist bps) hsort

theorem runBpOpsFrom_invariant (ops : List BpOp) :
    ∀ st bps, bpInvariant st → runBpOpsFrom st ops = some bps →
      bpInvariant bps := by
  induction ops with
  | nil =>
    intro st bps h1 h2
    injection h2 with h2
    subst h2
    exact h1
  | cons op rest ih =>
    intro st bps h1 h2
    cases hop : applyBpOp st op with
    | none => rw [runBpOpsFrom, hop] at h2; cases h2
    | some st' =>
      rw [runBpOpsFrom, hop] at h2
      refine ih st' bps ?_ h2
      cases op with
      | add address => exact bpInvariant_add st address st' h1 hop
      | remove id =>
        have : remove_breakpoint st id = st' := by
          injection hop
        exact this ▸ bpInvariant_remove st id h1

/-- C6: for every sequence of add/remove operations from the empty
manager, the resulting id set stays inside `0..1024` with no
duplicates and the list stays sorted by id; moreover `get_free_id`
always allocates the lowest free id (so the lowest freed id is reused
after a removal) and fails — fatally — exactly when all 1024 ids are
taken. -/
theorem breakpoint_manager_invariants (ops : List BpOp) (bps : List Breakpoint)
    (hrun : runBpOps ops = some bps) :
    ((∀ b ∈ bps, b.id < 1024) ∧ (bps.map Breakpoint.id).Nodup ∧
      List.Sorted bpLe bps) ∧
    (∀ n, get_free_id bps = some n →
      n < 1024 ∧ (∀ b ∈ bps, b.id ≠ n) ∧ ∀ m, m < n → ∃ b ∈ bps, b.id = m) ∧
    (get_free_id bps = none → ∀ n, n < 1024 → ∃ b ∈ bps, b.id = n) := by
  refine ⟨?_, ?_, ?_⟩
  · exact runBpOpsFrom_invariant ops [] bps ⟨by simp, by simp, List.sorted_nil⟩ hrun
  · intro n hn
    obtain ⟨-, h2, h3, h4⟩ := freeIdAux_some bps 1024 0 n hn
    exact ⟨by omega, h3, fun m hm => h4 m (Nat.zero_le m) hm⟩
  · intro h n hn
    exact freeIdAux_none bps 1024 0 h n (Nat.zero_le n) (by omega)

/-- Witness for C6 on the run add(100), add(200), remove(0), add(300):
the freed id 0 is reused, and the final state [0 -> 300, 1 -> 200] is
sorted with distinct ids inside `0..1024`. -/
theorem breakpoint_manager_invariants_witness :
    ((∀ b ∈ ([⟨0, 300⟩, ⟨1, 200⟩] : List Breakpoint), b.id < 1024) ∧
      (([⟨0, 300⟩, ⟨1, 200⟩] : List Breakpoint).map Breakpoint.id).Nodup ∧
      List.Sorted bpLe [⟨0, 300⟩, ⟨1, 200⟩]) ∧
    (∀ n, get_free_id [⟨0, 300⟩, ⟨1, 200⟩] = some n →
      n < 1024 ∧ (∀ b ∈ ([⟨0, 300⟩, ⟨1, 200⟩] : List Breakpoint), b.id ≠ n) ∧
      ∀ m, m < n → ∃ b ∈ ([⟨0, 300⟩, ⟨1, 200⟩] : List Breakpoint), b.id = m) ∧
    (get_free_id [⟨0, 300⟩, ⟨1, 200⟩] = none →
      ∀ n, n < 1024 → ∃ b ∈ ([⟨0, 300⟩, ⟨1, 200⟩] : List Breakpoint), b.id = n) :=
  breakpoint_manager_invariants [.add 100, .add 200, .remove 0, .add 300]
    [⟨0, 300⟩, ⟨1, 200⟩] (by decide)

/-- C7 counterexample: the grammar of src/command.rs has no
add-breakpoint, remove-breakpoint or list-breakpoints rule, and its
expression sub-grammar has no module!symbol token; all of these inputs
are rejected, refuting the claimed command list. -/
theorem command_grammar_counterexample :
    parseCommand "add-breakpoint 0x1000" = Option.none ∧
    parseCommand "remove-breakpoint 0" = Option.none ∧
    parseCommand "list-breakpoints" = Option.none ∧
    parseCommand "eval kernel32!ExitProcess" = Option.none :=
  ⟨rfl, rfl, rfl, rfl⟩

/-- C7 amended: the command grammar, over a single
whitespace-insensitive line, produces exactly the command shapes help,
step, continue, display-registers (keyword `registers`), display-bytes
expr, evaluate (keyword `eval`) expr, list-nearest expr, and quit, each
recognized by both its long keyword and its short alias; its
expression sub-grammar accepts integer literals (decimal or 0x-prefixed
hexadecimal, unsigned 64-bit) and left-associative binary `+`.  It has
no breakpoint commands and no module!symbol token. -/
theorem command_grammar_amended :
    parseCommand "help" = some .help ∧
    parseCommand "h" = some .helpAlias ∧
    parseCommand "step" = some .step ∧
    parseCommand "s" = some .stepAlias ∧
    parseCommand "continue" = some .continueCmd ∧
    parseCommand "c" = some .continueAlias ∧
    parseCommand "registers" = some .displayRegisters ∧
    parseCommand "r" = some .displayRegistersAlias ∧
    parseCommand "quit" = some .quit ∧
    parseCommand "q" = some .quitAlias ∧
    parseCommand "display-bytes 0x1F" = some (.displayBytes (.number 31)) ∧
    parseCommand "db 16" = some (.displayBytesAlias (.number 16)) ∧
    parseCommand "eval 1 + 0x2 + 3" =
      some (.evaluate (.add (.add (.number 1) (.number 2)) (.number 3))) ∧
    parseCommand "? 2" = some (.evaluateAlias (.number 2)) ∧
    parseCommand "list-nearest 0x1000" = some (.listNearest (.number 0x1000)) ∧
    parseCommand "ln 0x1000" = some (.listNearestAlias (.number 0x1000)) ∧
    parseCommand " eval  0x10+2 " = some (.evaluate (.add (.number 16) (.number 2))) :=
  ⟨rfl, rfl, rfl, rfl, rfl, rfl, rfl, rfl, rfl, rfl, rfl, rfl, rfl, rfl, rfl,
    rfl, rfl⟩

/-- C8: `evaluate_expression` folds literal and add nodes left to
right, so the parse of `1 + 0x2 + 3` evaluates to 6 in every process; a
symbol node goes through `resolve_name_to_address` at evaluation time,
and an unqualified symbol such as `foo` fails with the descriptive
error string below without panicking, and the Evaluate command arm
turns that failure into no output, does not resume the target, and does
not end the session. -/
theorem evaluate_expression_policy :
    parseCommand "eval 1 + 0x2 + 3" =
      some (.evaluate (.add (.add (.number 1) (.number 2)) (.number 3))) ∧
    (∀ p, evaluate_expression (.add (.add (.number 1) (.number 2)) (.number 3)) p =
      some (.ok 6)) ∧
    (∀ p, evaluate_expression (.symbol "foo") p =
      some (.error "Searching all modules for a symbol is not yet implmented")) ∧
    (∀ p, runEvaluateCmd (.symbol "foo") p = some (Option.none, false, false)) :=
  ⟨rfl, fun _ => rfl, fun _ => rfl, fun _ => rfl⟩

/-! Helper lemmas for the byte-level reads. -/

theorem chunkBytesAux_length (size : Nat) (hpos : 0 < size) :
    ∀ fuel (raw : List Nat), raw.length ≤ fuel →
      (chunkBytesAux size fuel raw).length = raw.length / size := by
  intro fuel
  induction fuel with
  | zero =>
    intro raw h
    rw [Nat.le_zero] at h
    simp [chunkBytesAux, h]
  | succ fuel ih =>
    intro raw h
    by_cases hc : 0 < size ∧ size ≤ raw.length
    · have hdrop : (raw.drop size).length = raw.length - size := List.length_drop _ _
      rw [chunkBytesAux, if_pos hc, List.length_cons,
        ih _ (by rw [hdrop]; omega), hdrop, Nat.div_eq_sub_div hpos hc.2]
    · rw [chunkBytesAux, if_neg hc]
      have hlt : raw.length < size := by
        rcases Nat.lt_or_ge raw.length size with h1 | h1
        · exact h1
        · exact absurd ⟨hpos, h1⟩ hc
      simp [Nat.div_eq_of_lt hlt]

theorem read_memory_full_array_short (src : MemorySource) (addr count size : Nat)
    (hpos : 0 < size)
    (hshort : (src addr (count * size)).length < count * size) :
    read_memory_full_array src addr count size =
      .error "Could not read all items" := by
  have hlen : (read_memory_array src addr count size).length =
      (src addr (count * size)).length / size := by
    simp only [read_memory_array, chunkBytes, List.length_map]
    exact chunkBytesAux_length size hpos _ _ (le_refl _)
  have hq : (src addr (count * size)).length / size < count :=
    (Nat.div_lt_iff_lt_mul hpos).mpr hshort
  simp only [read_memory_full_array]
  rw [if_pos (by rw [hlen]; omega)]

theorem read_memory_full_array_error (src : MemorySource) (addr count size : Nat)
    (e : String) (h : read_memory_full_array src addr count size = .error e) :
    e = "Could not read all items" := by
  simp only [read_memory_full_array] at h
  by_cases hc : (read_memory_array src addr count size).length ≠ count
  · rw [if_pos hc] at h
    injection h with h
    exact h.symm
  · rw [if_neg hc] at h
    cases h

/-- The classification step inside `mkRawExport`, by unfolding. -/
theorem mkRawExport_target (src : MemorySource)
    (module_address export_table_addr export_table_end base : Nat)
    (ordinal_array name_array : List Nat) (i fa : Nat) :
    (mkRawExport src module_address export_table_addr export_table_end base
        ordinal_array name_array i fa).target =
      (if export_table_addr ≤ module_address + fa ∧
          module_address + fa < export_table_end then
        .forwarderTarget (read_memory_string src (module_address + fa) 4096)
      else .rvaTarget (module_address + fa)) := rfl

/-- C4: during export-table parsing, the entry at index i is classified
as a forwarder (whose string is read at its raw target address) if and
only if its raw target absolute address — module base plus the raw
address-table value — lies inside the export directory's own address
range [export_directory_addr, export_directory_addr + size): the lower
boundary value is inside, the upper boundary value is outside; every
other entry is an RVA code target at that absolute address. -/
theorem export_forwarder_classification (pe : PeHeader) (module_address : Nat)
    (src : MemorySource) (ed : ExportDirectory)
    (ordArr nameArr addrTable : List Nat) (exports : List RawExport)
    (mn : Option (List Nat))
    (hva : pe.exportDir.virtualAddress ≠ 0)
    (hed : readExportDirectory src (module_address + pe.exportDir.virtualAddress) =
      some ed)
    (hord : read_memory_full_array src (module_address + ed.addressOfNameOrdinals)
      ed.numberOfNames 2 = .ok ordArr)
    (hname : read_memory_full_array src (module_address + ed.addressOfNames)
      ed.numberOfNames 4 = .ok nameArr)
    (haddr : read_memory_full_array src (module_address + ed.addressOfFunctions)
      ed.numberOfFunctions 4 = .ok addrTable)
    (hres : read_exports pe module_address src = some (.ok (exports, mn))) :
    exports.length = addrTable.length ∧
    ∀ i (hi : i < exports.length) (hia : i < addrTable.length),
      ((exports.get ⟨i, hi⟩).target =
          .forwarderTarget (read_memory_string src
            (module_address + addrTable.get ⟨i, hia⟩) 4096) ↔
        module_address + pe.exportDir.virtualAddress ≤
            module_address + addrTable.get ⟨i, hia⟩ ∧
          module_address + addrTable.get ⟨i, hia⟩ <
            module_address + pe.exportDir.virtualAddress + pe.exportDir.size) ∧
      (¬ (module_address + pe.exportDir.virtualAddress ≤
            module_address + addrTable.get ⟨i, hia⟩ ∧
          module_address + addrTable.get ⟨i, hia⟩ <
            module_address + pe.exportDir.virtualAddress + pe.exportDir.size) →
        (exports.get ⟨i, hi⟩).target =
          .rvaTarget (module_address + addrTable.get ⟨i, hia⟩)) := by
  have hre : read_exports pe module_address src =
      some (.ok ((addrTable.enum.map fun pr =>
        mkRawExport src module_address
          (module_address + pe.exportDir.virtualAddress)
          (module_address + pe.exportDir.virtualAddress + pe.exportDir.size)
          ed.base ordArr nameArr pr.1 pr.2),
        if ed.name ≠ 0 then
          some (read_memory_string src (module_address + ed.name) 512)
        else none)) := by
    simp only [read_exports, if_pos hva, hed, hord, hname, haddr]
  rw [hre] at hres
  injection hres with hres
  injection hres with hres
  injection hres with hexp hmn
  subst hexp
  constructor
  · simp
  · intro i hi hia
    have hget : ((addrTable.enum.map fun pr =>
        mkRawExport src module_address
          (module_address + pe.exportDir.virtualAddress)
          (module_address + pe.exportDir.virtualAddress + pe.exportDir.size)
          ed.base ordArr nameArr pr.1 pr.2)).get ⟨i, hi⟩ =
        mkRawExport src module_address
          (module_address + pe.exportDir.virtualAddress)
          (module_address + pe.exportDir.virtualAddress + pe.exportDir.size)
          ed.base ordArr nameArr i (addrTable.get ⟨i, hia⟩) := by
      simp [List.get_eq_getElem, List.getElem_map, List.getElem_enum]
    rw [hget, mkRawExport_target]
    by_cases hcond : module_address + pe.exportDir.virtualAddress ≤
        module_address + addrTable.get ⟨i, hia⟩ ∧
      module_address + addrTable.get ⟨i, hia⟩ <
        module_address + pe.exportDir.virtualAddress + pe.exportDir.size
    · rw [if_pos hcond]
      exact ⟨⟨fun _ => hcond, fun _ => rfl⟩, fun hn => absurd hcond hn⟩
    · rw [if_neg hcond]
      exact ⟨⟨fun hcontra => RawExportTarget.noConfusion hcontra,
        fun hin => absurd hin hcond⟩, fun _ => rfl⟩

/-- Witness for C4 on `srcC4`: two export entries; the first's raw
target 0x110 lies inside the directory range [0x100, 0x130) and is a
forwarder, the second's raw target 0x1000 lies outside and is an RVA
code target. -/
theorem export_forwarder_classification_witness :
    ([⟨Option.none, 1, .forwarderTarget [88]⟩,
      ⟨Option.none, 2, .rvaTarget 0x1000⟩] : List RawExport).length =
      ([0x110, 0x1000] : List Nat).length ∧
    ∀ i (hi : i < ([⟨Option.none, 1, .forwarderTarget [88]⟩,
        ⟨Option.none, 2, .rvaTarget 0x1000⟩] : List RawExport).length)
      (hia : i < ([0x110, 0x1000] : List Nat).length),
      ((([⟨Option.none, 1, .forwarderTarget [88]⟩,
          ⟨Option.none, 2, .rvaTarget 0x1000⟩] : List RawExport).get ⟨i, hi⟩).target =
          .forwarderTarget (read_memory_string srcC4
            (0 + ([0x110, 0x1000] : List Nat).get ⟨i, hia⟩) 4096) ↔
        0 + peC4.exportDir.virtualAddress ≤
            0 + ([0x110, 0x1000] : List Nat).get ⟨i, hia⟩ ∧
          0 + ([0x110, 0x1000] : List Nat).get ⟨i, hia⟩ <
            0 + peC4.exportDir.virtualAddress + peC4.exportDir.size) ∧
      (¬ (0 + peC4.exportDir.virtualAddress ≤
            0 + ([0x110, 0x1000] : List Nat).get ⟨i, hia⟩ ∧
          0 + ([0x110, 0x1000] : List Nat).get ⟨i, hia⟩ <
            0 + peC4.exportDir.virtualAddress + peC4.exportDir.size) →
        ((([⟨Option.none, 1, .forwarderTarget [88]⟩,
            ⟨Option.none, 2, .rvaTarget 0x1000⟩] : List RawExport).get ⟨i, hi⟩).target =
          .rvaTarget (0 + ([0x110, 0x1000] : List Nat).get ⟨i, hia⟩))) :=
  export_forwarder_classification peC4 0 srcC4 ⟨0, 1, 2, 0, 0x200, 0x300, 0x300⟩
    [] [] [0x110, 0x1000]
    [⟨Option.none, 1, .forwarderTarget [88]⟩, ⟨Option.none, 2, .rvaTarget 0x1000⟩]
    Option.none (by decide) rfl rfl rfl rfl rfl

/-- C9: whenever the DOS and NT headers and the export directory parse
and the debug-info pass completes, but the ordinal-to-name-index
array, the name-pointer array or the address table cannot be read at
its full declared length, `from_memory_view` (the spec's
`parse_module`) returns the load error instead of a module with a
partial export list. -/
theorem short_export_read_is_load_error (module_address : Nat)
    (module_name : Option (List Nat)) (src : MemorySource)
    (openPdb : List Nat → Except String (List PubSym))
    (e_lfanew : Nat) (hdos : readDosLfanew src module_address = some e_lfanew)
    (pe : PeHeader) (hnt : readNtHeaders src (module_address + e_lfanew) = some pe)
    (dbg : DebugInfoState)
    (hdbg : read_debug_info pe module_address src openPdb = some dbg)
    (hva : pe.exportDir.virtualAddress ≠ 0)
    (ed : ExportDirectory)
    (hed : readExportDirectory src (module_address + pe.exportDir.virtualAddress) =
      some ed)
    (hshort :
      (src (module_address + ed.addressOfNameOrdinals)
          (ed.numberOfNames * 2)).length < ed.numberOfNames * 2 ∨
      (src (module_address + ed.addressOfNames)
          (ed.numberOfNames * 4)).length < ed.numberOfNames * 4 ∨
      (src (module_address + ed.addressOfFunctions)
          (ed.numberOfFunctions * 4)).length < ed.numberOfFunctions * 4) :
    from_memory_view module_address module_name src openPdb =
      some (.error "Could not read all items") := by
  obtain ⟨pi, pn, pdbr⟩ := dbg
  have hre : read_exports pe module_address src =
      some (.error "Could not read all items") := by
    rcases h1 : read_memory_full_array src (module_address + ed.addressOfNameOrdinals)
        ed.numberOfNames 2 with e1 | ordArr
    · have he1 := read_memory_full_array_error _ _ _ _ _ h1
      subst he1
      simp only [read_exports, if_pos hva, hed, h1]
    · rcases h2 : read_memory_full_array src (module_address + ed.addressOfNames)
          ed.numberOfNames 4 with e2 | nameArr
      · have he2 := read_memory_full_array_error _ _ _ _ _ h2
        subst he2
        simp only [read_exports, if_pos hva, hed, h1, h2]
      · rcases h3 : read_memory_full_array src (module_address + ed.addressOfFunctions)
            ed.numberOfFunctions 4 with e3 | addrT
        · have he3 := read_memory_full_array_error _ _ _ _ _ h3
          subst he3
          simp only [read_exports, if_pos hva, hed, h1, h2, h3]
        · exfalso
          rcases hshort with hs | hs | hs
          · have hc := read_memory_full_array_short src
              (module_address + ed.addressOfNameOrdinals) ed.numberOfNames 2
              (by norm_num) hs
            rw [h1] at hc
            exact Except.noConfusion hc
          · have hc := read_memory_full_array_short src
              (module_address + ed.addressOfNames) ed.numberOfNames 4
              (by norm_num) hs
            rw [h2] at hc
            exact Except.noConfusion hc
          · have hc := read_memory_full_array_short src
              (module_address + ed.addressOfFunctions) ed.numberOfFunctions 4
              (by norm_num) hs
            rw [h3] at hc
            exact Except.noConfusion hc
  simp only [from_memory_view, hdos, hnt, hdbg, hre]

set_option maxRecDepth 20000 in
/-- Witness for C9 on `srcC9`: headers parse, the export directory
declares two names, the ordinal array at 0x10400 reads back empty, and
module parsing returns the load error. -/
theorem short_export_read_is_load_error_witness :
    from_memory_view 0x10000 Option.none srcC9 openPdbNone =
      some (.error "Could not read all items") :=
  short_export_read_is_load_error 0x10000 Option.none srcC9 openPdbNone
    64 rfl ⟨0, ⟨0x100, 48⟩, ⟨0, 0⟩⟩ rfl
    (Option.none, Option.none, .error "No matching PDB") rfl
    (by decide) ⟨0, 0, 0, 2, 0x500, 0x400, 0x400⟩ rfl
    (Or.inl (by decide))

end Debugger
